import Mathlib

/-!
Verification of the paginated text-to-image engine of `image-utils-mcp`
(`src/tools/Text2ImageTool.py`).

Strings are modelled as `List Char`.  The Python functions
`split_text_into_pages`, `create_smart_multi_page_story` and
`Text2ImageTool.execute` are embedded as executable Lean definitions below;
drawing of pixels (PIL calls) is outside the model, while every piece of
control flow that decides page contents, page counts, footers, file names and
result payloads is translated statement by statement from the source.
-/

/-- Whitespace test used by Python's `str.strip()`: the characters CPython's
`Py_UNICODE_ISSPACE` accepts — `\t\n\v\f\r` (U+0009–U+000D), space, the
separators U+001C–U+001F, U+0085, U+00A0, U+1680, U+2000–U+200A,
U+2028, U+2029, U+202F, U+205F and U+3000. -/
def pyIsSpace (c : Char) : Bool :=
  (0x09 ≤ c.toNat && c.toNat ≤ 0x0d) || c = ' ' ||
  (0x1c ≤ c.toNat && c.toNat ≤ 0x1f) || c.toNat = 0x85 || c.toNat = 0xa0 ||
  c.toNat = 0x1680 || (0x2000 ≤ c.toNat && c.toNat ≤ 0x200a) ||
  c.toNat = 0x2028 || c.toNat = 0x2029 || c.toNat = 0x202f ||
  c.toNat = 0x205f || c.toNat = 0x3000

/-- Python `line.strip()`: remove leading and trailing whitespace. -/
def pyStrip (l : List Char) : List Char :=
  ((l.dropWhile pyIsSpace).reverse.dropWhile pyIsSpace).reverse

/-- Python `content.split('\n')`: note `''.split('\n') == ['']`, i.e. the
result always has one more entry than the number of `'\n'` characters. -/
def splitOnNL : List Char → List (List Char)
  | [] => [[]]
  | c :: rest =>
    if c = '\n' then [] :: splitOnNL rest
    else
      match splitOnNL rest with
      | [] => [[c]]
      | l :: ls => (c :: l) :: ls

/-- Inverse of `splitOnNL`: rejoin source lines with `'\n'` separators
(`'\n'.join(...)` in Python). -/
def joinLinesNL : List (List Char) → List Char
  | [] => []
  | [l] => l
  | l :: l' :: ls => l ++ '\n' :: joinLinesNL (l' :: ls)

/-- Fuel-indexed slicing loop: `for i in range(0, len(line), n): line[i:i+n]`
for a positive step `n`.  The fuel (`line.length` at the top call) bounds the
number of iterations, which suffices because each iteration with `1 ≤ n`
consumes at least one character. -/
def chunkLineGo : Nat → Nat → List Char → List (List Char)
  | 0, _, _ => []
  | _ + 1, _, [] => []
  | f + 1, n, c :: cs => ((c :: cs).take n) :: chunkLineGo f n ((c :: cs).drop n)

/-- Split a source line into consecutive chunks of `n` characters
(the last chunk may be shorter). -/
def chunkLine (n : Nat) (line : List Char) : List (List Char) :=
  chunkLineGo line.length n line

/-- Chunks produced by `range(0, len(line), chars_per_line)` for a nonzero
step: a negative step makes the range empty, so the line yields no chunks.
The zero-step `ValueError` is raised by `lineStep` before this is reached. -/
def pyChunks (cpl : Int) (line : List Char) : List (List Char) :=
  if cpl < 0 then [] else chunkLine cpl.toNat line

/-- Loop state of `split_text_into_pages`: the finished pages, the page being
filled (`current_page`) and `current_line_count`. -/
structure PagState where
  pages : List (List (List Char))
  current : List (List Char)
  count : Int
  deriving Repr, DecidableEq

/-- Empty-line branch of the loop body: append one blank display line if the
page has room, otherwise close the page and start the next one with one blank
line. -/
def blankStep (lpp : Int) (st : PagState) : PagState :=
  if st.count < lpp then
    { pages := st.pages, current := st.current ++ [[]], count := st.count + 1 }
  else
    { pages := st.pages ++ [st.current], current := [[]], count := 1 }

/-- Per-chunk body of the non-empty-line branch: close the page first when it
is full (`current_line_count >= lines_per_page`), then append the chunk. -/
def chunkStep (lpp : Int) (st : PagState) (seg : List Char) : PagState :=
  if lpp ≤ st.count then
    { pages := st.pages ++ [st.current], current := [seg], count := 1 }
  else
    { pages := st.pages, current := st.current ++ [seg], count := st.count + 1 }

/-- One iteration of the outer `for line in original_lines` loop.  A blank
(whitespace-only) line takes the empty-line branch; otherwise the line is
chunked by `range(0, len(line), chars_per_line)`, which raises `ValueError`
when the step is zero — modelled as `Except.error ()`. -/
def lineStep (cpl lpp : Int) (st : PagState) (line : List Char) :
    Except Unit PagState :=
  if (pyStrip line).isEmpty then Except.ok (blankStep lpp st)
  else if cpl = 0 then Except.error ()
  else Except.ok ((pyChunks cpl line).foldl (chunkStep lpp) st)

/-- The outer loop of `split_text_into_pages` over the source lines. -/
def processLines (cpl lpp : Int) (st : PagState) :
    List (List Char) → Except Unit PagState
  | [] => Except.ok st
  | line :: rest =>
    match lineStep cpl lpp st line with
    | Except.error e => Except.error e
    | Except.ok st' => processLines cpl lpp st' rest

/-- `split_text_into_pages(content, chars_per_line, lines_per_page)`
(Text2ImageTool.py, lines 102–151): split the content on newlines, fill pages
line by line, and finally push the last page when it is non-empty. -/
def split_text_into_pages (content : List Char) (chars_per_line lines_per_page : Int) :
    Except Unit (List (List (List Char))) :=
  match processLines chars_per_line lines_per_page
      { pages := [], current := [], count := 0 } (splitOnNL content) with
  | Except.error e => Except.error e
  | Except.ok st =>
    Except.ok (if st.current.isEmpty then st.pages else st.pages ++ [st.current])

/-- Display lines contributed by one source line: one blank line for a blank
source line, the `chars_per_line` chunks otherwise.  This mirrors the two
branches of the loop body and is the specification-side description of the
fixed-width character-count split. -/
def line_display (cpl : Int) (line : List Char) : List (List Char) :=
  if (pyStrip line).isEmpty then [[]] else pyChunks cpl line

/-- `lines_per_page = available_height // line_height` where
`available_height = height - title_height(120) - page_num_height(50) -
border_margin(20)` and `line_height = 35` (the `try` block assigns a constant
and can never fail).  Python `//` on ints is floor division (`Int.fdiv`). -/
def derive_lines_per_page (height : Int) : Int :=
  (height - 120 - 50 - 20).fdiv 35

/-- `chars_per_line = (width - 120) // int(char_width)` where `char_width` is
`temp_draw.textlength("中", ...)` when the backend has `textlength` (the
`some` case carries the already-truncated `int(...)` value) and the constant
`24` otherwise.  A zero `char_width` makes the division raise
`ZeroDivisionError`, which the surrounding `except` turns into the default
`25`. -/
def derive_chars_per_line (width : Int) (charWidth : Option Int) : Int :=
  let cw : Int := match charWidth with
    | none => 24
    | some w => w
  if cw = 0 then 25 else (width - 120).fdiv cw

/-- Capture time `datetime.now()` restricted to the fields the file-name
format uses. -/
structure Timestamp where
  year : Nat
  month : Nat
  day : Nat
  hour : Nat
  deriving Repr, DecidableEq

/-- ASCII digit character for `m < 10`. -/
def digitChar (m : Nat) : Char := Char.ofNat (48 + m)

/-- Fuel-indexed decimal rendering of a natural number (most significant
digit first); fuel `n + 1` always suffices since `n / 10 < n` for `n ≥ 10`. -/
def natDigitsGo : Nat → Nat → List Char
  | 0, _ => []
  | f + 1, n =>
    if n < 10 then [digitChar n]
    else natDigitsGo f (n / 10) ++ [digitChar (n % 10)]

/-- Decimal rendering of a natural number, as in Python `f"{n}"`. -/
def natDigits (n : Nat) : List Char := natDigitsGo (n + 1) n

/-- Python `f"{n:02d}"` for a non-negative `n`: pad a single digit with a
leading `'0'`, otherwise the plain decimal rendering. -/
def pad2 (n : Nat) : List Char :=
  if n < 10 then '0' :: natDigits n else natDigits n

/-- The date part shared by every file name of one invocation:
`f"{now.year}_{now.month:02d}_{now.day:02d}_{now.hour:02d}_"`. -/
def dateStem (ts : Timestamp) : List Char :=
  natDigits ts.year ++ ['_'] ++ pad2 ts.month ++ ['_'] ++ pad2 ts.day ++ ['_'] ++
    pad2 ts.hour ++ ['_']

/-- `file_name = f"{now.year}_{now.month:02d}_{now.day:02d}_{now.hour:02d}_{i:02d}.png"`
for the 1-based page index `i`. -/
def file_name (ts : Timestamp) (i : Nat) : List Char :=
  dateStem ts ++ pad2 i ++ (".png").data

/-- `output_file_path_prefix.endswith('/') or ...endswith('\\')`. -/
def endsWithSep (pfx : List Char) : Bool :=
  pfx.getLast? = some '/' || pfx.getLast? = some '\\'

/-- Separator choice of the `else` branch:
`'/' if '/' in prefix or '\\' not in prefix else '\\'`. -/
def pickSep (pfx : List Char) : Char :=
  if '/' ∈ pfx ∨ '\\' ∉ pfx then '/' else '\\'

/-- Path concatenation logic of the output loop (lines 232–241). -/
def join_output_path (pfx name : List Char) : List Char :=
  if endsWithSep pfx then pfx ++ name
  else pfx ++ [pickSep pfx] ++ name

/-- `posixpath.dirname(p)` (the engine runs `os.path.dirname` on the output
path parameter; POSIX semantics): everything up to the last `'/'`, with
trailing slashes stripped unless the head consists only of slashes. -/
def py_dirname (p : List Char) : List Char :=
  if (p.reverse.dropWhile (fun c => c ≠ '/')).reverse ≠ [] ∧
      (p.reverse.dropWhile (fun c => c ≠ '/')).reverse.any (fun c => c ≠ '/') then
    ((p.reverse.dropWhile (fun c => c ≠ '/')).dropWhile (fun c => c = '/')).reverse
  else (p.reverse.dropWhile (fun c => c ≠ '/')).reverse

/-- Effect of `if output_dir and not os.path.exists(output_dir):
os.makedirs(output_dir)` on a filesystem modelled as the list of existing
directories: the parent `os.path.dirname(prefix)` is created when it is
non-empty and absent. -/
def ensure_output_dir (fs : List (List Char)) (pfx : List Char) : List (List Char) :=
  let d := py_dirname pfx
  if d ≠ [] ∧ d ∉ fs then fs ++ [d] else fs

/-- One produced page together with the data drawn on it that the engine
derives per page: its display lines, its 1-based index, the total page count
used in the footer `f"第 {i} / {total_pages} 页"`, and the output path.  The
pixel contents of the bitmap are outside the model. -/
structure RenderedPage where
  lines : List (List Char)
  index : Nat
  total : Nat
  path : List Char
  deriving Repr, DecidableEq

/-- The `for i, page_lines in enumerate(pages, 1)` output loop (lines
223–241 and 268–288): 1-based indices, the shared post-truncation total, and
the timestamped file name joined onto the output prefix. -/
def render_pages (ts : Timestamp) (pfx : List Char)
    (pages : List (List (List Char))) : List RenderedPage :=
  pages.enum.map (fun p =>
    { lines := p.2, index := p.1 + 1, total := pages.length,
      path := join_output_path pfx (file_name ts (p.1 + 1)) })

/-- The `image.save(output_path)` / `image_paths.append(output_path)` steps
of the output loop, run page by page: PIL's save opens the file and raises
`FileNotFoundError` when the containing directory does not exist, aborting
the whole call — modelled as `Except.error ()` when `os.path.dirname` of the
path is neither empty (a bare file name, written to the current working
directory, which always exists) nor an existing directory. -/
def save_pages (fs : List (List Char)) : List RenderedPage → Except Unit (List (List Char))
  | [] => Except.ok []
  | rp :: rest =>
    if py_dirname rp.path = [] ∨ py_dirname rp.path ∈ fs then
      match save_pages fs rest with
      | Except.error e => Except.error e
      | Except.ok paths => Except.ok (rp.path :: paths)
    else Except.error ()

/-- Python slice `l[:m]` for an arbitrary integer bound. -/
def pySliceTo {α : Type} (l : List α) (m : Int) : List α :=
  if 0 ≤ m then l.take m.toNat else l.take ((l.length : Int) + m).toNat

/-- `if max_pages and len(pages) > max_pages: pages = pages[:max_pages]`
(lines 211–216).  Note the truthiness test: `max_pages = 0` never truncates. -/
def apply_max_pages (maxPages : Option Int) (pages : List (List (List Char))) :
    List (List (List Char)) :=
  match maxPages with
  | none => pages
  | some m => if m ≠ 0 ∧ m < (pages.length : Int) then pySliceTo pages m else pages

/-- `create_smart_multi_page_story(title, content, max_pages,
output_file_path_prefix, width, height)` (lines 154–291), reduced to the data
it computes and its filesystem effects: derive the layout capacities,
paginate, truncate, create `os.path.dirname(prefix)` when absent, then
render and save each page in order.  `charWidth` abstracts the measured
`int(temp_draw.textlength("中"))` (`none` when the backend lacks
`textlength`); `fs` is the set of existing directories.  A `ValueError` from
the paginator or a `FileNotFoundError` from a save propagates (drawing of
pixels stays outside the model).  On success the per-page records and the
resulting filesystem are returned. -/
def create_smart_multi_page_story (ts : Timestamp) (charWidth : Option Int)
    (title content : List Char) (maxPages : Option Int) (pfx : List Char)
    (width height : Int) (fs : List (List Char)) :
    Except Unit (List RenderedPage × List (List Char)) :=
  match split_text_into_pages content (derive_chars_per_line width charWidth)
      (derive_lines_per_page height) with
  | Except.error e => Except.error e
  | Except.ok pages =>
    match save_pages (ensure_output_dir fs pfx)
        (render_pages ts pfx (apply_max_pages maxPages pages)) with
    | Except.error e => Except.error e
    | Except.ok _ =>
      Except.ok (render_pages ts pfx (apply_max_pages maxPages pages),
        ensure_output_dir fs pfx)

/-- Result payload of `Text2ImageTool.execute`: `type`, `text`, and the
optional `result` field (absent in the error payload). -/
structure PyToolResult where
  type : List Char
  text : List Char
  result : Option (List Char)
  deriving Repr, DecidableEq

/-- Python `repr` of a list of strings, as produced by `f"{image_paths}"`. -/
def pyListRepr (paths : List (List Char)) : List Char :=
  '[' :: (List.intercalate (", ").data
    (paths.map (fun p => Char.ofNat 39 :: p ++ [Char.ofNat 39]))) ++ [']']

/-- Default output prefix `os.path.abspath(os.sep)` (POSIX: `"/"`). -/
def defaultOutputPfx : List Char := ['/']

/-- `Text2ImageTool.execute(title, content, image_type)` (lines 321–340):
both the `image_type == "BlackBgWhiteText"` branch and the fallback branch
call `create_smart_multi_page_story(title, content)` with all defaults
against the ambient filesystem `fs`; the `except` clause turns an exception
into the error payload (whose human-readable message tail is elided). -/
def Text2ImageTool_execute (ts : Timestamp) (charWidth : Option Int)
    (fs : List (List Char)) (title content image_type : List Char) : PyToolResult :=
  let r :=
    if image_type = ("BlackBgWhiteText").data then
      create_smart_multi_page_story ts charWidth title content none
        defaultOutputPfx 800 1200 fs
    else
      create_smart_multi_page_story ts charWidth title content none
        defaultOutputPfx 800 1200 fs
  match r with
  | Except.ok rps =>
    { type := ("text").data,
      text := ("生成图片成功，共生成: ").data ++ natDigits rps.1.length ++ (" 张").data,
      result := some (pyListRepr (rps.1.map (fun rp => rp.path))) }
  | Except.error _ =>
    { type := ("error").data, text := ("生成图片失败: ").data, result := none }

/-- Decimal parser (proof apparatus): fold a digit string back into the
number it denotes.  It is a left inverse of `natDigits` and of `pad2`, which
yields injectivity of the file-name index field. -/
def ofDigits (ds : List Char) : Nat :=
  ds.foldl (fun acc c => acc * 10 + (c.toNat - 48)) 0

/-! ### Reconstruction machinery for the paginator -/

theorem chunkLineGo_flatten : ∀ (f n : Nat) (l : List Char), l.length ≤ f → 1 ≤ n →
    (chunkLineGo f n l).flatten = l := by
  intro f
  induction f with
  | zero =>
    intro n l hl _
    have : l = [] := List.length_eq_zero.mp (Nat.le_zero.mp hl)
    subst this
    rfl
  | succ f ih =>
    intro n l hl hn
    cases l with
    | nil => rfl
    | cons c cs =>
      have hdrop : ((c :: cs).drop n).length ≤ f := by
        rw [List.length_drop]
        simp only [List.length_cons] at hl ⊢
        omega
      show (((c :: cs).take n) :: chunkLineGo f n ((c :: cs).drop n)).flatten = c :: cs
      rw [List.flatten_cons, ih n _ hdrop hn, List.take_append_drop]

theorem chunkLine_flatten (n : Nat) (l : List Char) (hn : 1 ≤ n) :
    (chunkLine n l).flatten = l :=
  chunkLineGo_flatten l.length n l (Nat.le_refl _) hn

theorem pyChunks_flatten (cpl : Int) (l : List Char) (h : 1 ≤ cpl) :
    (pyChunks cpl l).flatten = l := by
  unfold pyChunks
  rw [if_neg (by omega)]
  exact chunkLine_flatten _ _ (by omega)

theorem splitOnNL_ne_nil (l : List Char) : splitOnNL l ≠ [] := by
  cases l with
  | nil => simp [splitOnNL]
  | cons c rest =>
    unfold splitOnNL
    split
    · simp
    · cases h : splitOnNL rest <;> simp

theorem joinLinesNL_cons_head (ch : Char) (l : List Char) (ls : List (List Char)) :
    joinLinesNL ((ch :: l) :: ls) = ch :: joinLinesNL (l :: ls) := by
  cases ls <;> rfl

theorem joinLinesNL_splitOnNL (c : List Char) : joinLinesNL (splitOnNL c) = c := by
  induction c with
  | nil => rfl
  | cons ch rest ih =>
    unfold splitOnNL
    by_cases h : ch = '\n'
    · subst h
      rw [if_pos rfl]
      have hne := splitOnNL_ne_nil rest
      cases hsplit : splitOnNL rest with
      | nil => exact absurd hsplit hne
      | cons l ls =>
        show joinLinesNL ([] :: l :: ls) = '\n' :: rest
        show [] ++ '\n' :: joinLinesNL (l :: ls) = '\n' :: rest
        rw [hsplit] at ih
        simp [ih]
    · rw [if_neg h]
      have hne := splitOnNL_ne_nil rest
      cases hsplit : splitOnNL rest with
      | nil => exact absurd hsplit hne
      | cons l ls =>
        rw [hsplit] at ih
        show joinLinesNL ((ch :: l) :: ls) = ch :: rest
        rw [joinLinesNL_cons_head, ih]

theorem splitOnNL_no_newline (l : List Char) (h : '\n' ∉ l) : splitOnNL l = [l] := by
  induction l with
  | nil => rfl
  | cons c rest ih =>
    have hc : ¬ (c = '\n') := by
      intro hc
      exact h (by rw [hc]; exact List.mem_cons_self _ _)
    have hr : '\n' ∉ rest := fun hr => h (List.mem_cons_of_mem c hr)
    unfold splitOnNL
    rw [if_neg hc, ih hr]

theorem chunkStep_flat (lpp : Int) (st : PagState) (seg : List Char) :
    (chunkStep lpp st seg).pages.flatten ++ (chunkStep lpp st seg).current =
      st.pages.flatten ++ st.current ++ [seg] := by
  unfold chunkStep
  split <;> simp

theorem foldl_chunkStep_flat (lpp : Int) :
    ∀ (segs : List (List Char)) (st : PagState),
      ((segs.foldl (chunkStep lpp) st).pages.flatten ++
        (segs.foldl (chunkStep lpp) st).current) =
        st.pages.flatten ++ st.current ++ segs := by
  intro segs
  induction segs with
  | nil => intro st; simp
  | cons s rest ih =>
    intro st
    rw [List.foldl_cons, ih (chunkStep lpp st s), chunkStep_flat]
    simp

theorem blankStep_flat (lpp : Int) (st : PagState) :
    (blankStep lpp st).pages.flatten ++ (blankStep lpp st).current =
      st.pages.flatten ++ st.current ++ [[]] := by
  unfold blankStep
  split <;> simp

theorem lineStep_flat (cpl lpp : Int) (st : PagState) (line : List Char)
    (hcpl : cpl ≠ 0) :
    ∃ st', lineStep cpl lpp st line = Except.ok st' ∧
      st'.pages.flatten ++ st'.current =
        st.pages.flatten ++ st.current ++ line_display cpl line := by
  unfold lineStep line_display
  by_cases hb : (pyStrip line).isEmpty
  · rw [if_pos hb, if_pos hb]
    exact ⟨blankStep lpp st, rfl, blankStep_flat lpp st⟩
  · rw [if_neg hb, if_neg hb, if_neg hcpl]
    exact ⟨_, rfl, foldl_chunkStep_flat lpp (pyChunks cpl line) st⟩

theorem processLines_flat (cpl lpp : Int) (hcpl : cpl ≠ 0) :
    ∀ (lines : List (List Char)) (st : PagState),
      ∃ st', processLines cpl lpp st lines = Except.ok st' ∧
        st'.pages.flatten ++ st'.current =
          st.pages.flatten ++ st.current ++ (lines.map (line_display cpl)).flatten := by
  intro lines
  induction lines with
  | nil => intro st; exact ⟨st, rfl, by simp⟩
  | cons line rest ih =>
    intro st
    obtain ⟨st1, hstep, hflat1⟩ := lineStep_flat cpl lpp st line hcpl
    obtain ⟨st2, hrest, hflat2⟩ := ih st1
    refine ⟨st2, ?_, ?_⟩
    · unfold processLines
      rw [hstep]
      exact hrest
    · rw [hflat2, hflat1]
      simp [List.append_assoc]

theorem split_pages_flat (c : List Char) (cpl lpp : Int) (hcpl : cpl ≠ 0) :
    ∃ pages, split_text_into_pages c cpl lpp = Except.ok pages ∧
      pages.flatten = ((splitOnNL c).map (line_display cpl)).flatten := by
  obtain ⟨st, hrun, hflat⟩ :=
    processLines_flat cpl lpp hcpl (splitOnNL c) { pages := [], current := [], count := 0 }
  refine ⟨if st.current.isEmpty then st.pages else st.pages ++ [st.current], ?_, ?_⟩
  · unfold split_text_into_pages
    rw [hrun]
  · simp only [List.flatten_nil, List.nil_append] at hflat
    by_cases hcur : st.current.isEmpty
    · rw [if_pos hcur]
      have : st.current = [] := by simpa [List.isEmpty_iff] using hcur
      rw [this, List.append_nil] at hflat
      exact hflat
    · rw [if_neg hcur]
      rw [List.flatten_append]
      simpa using hflat

/-! ### Failure behaviour of the paginator for `chars_per_line = 0` -/

theorem processLines_zero_error (lpp : Int) :
    ∀ (lines : List (List Char)) (st : PagState),
      (processLines 0 lpp st lines = Except.error ()) ↔
        ∃ l ∈ lines, (pyStrip l).isEmpty = false := by
  intro lines
  induction lines with
  | nil => intro st; simp [processLines]
  | cons line rest ih =>
    intro st
    by_cases hb : (pyStrip line).isEmpty
    · have hstep : lineStep 0 lpp st line = Except.ok (blankStep lpp st) := by
        unfold lineStep
        rw [if_pos hb]
      have hbe : pyStrip line = [] := by simpa [List.isEmpty_iff] using hb
      unfold processLines
      rw [hstep]
      rw [ih (blankStep lpp st)]
      simp [hbe]
    · have hstep : lineStep 0 lpp st line = Except.error () := by
        unfold lineStep
        rw [if_neg hb, if_pos rfl]
      unfold processLines
      rw [hstep]
      simp only [true_iff]
      exact ⟨line, List.mem_cons_self _ _, by simpa using hb⟩

theorem split_zero_error (c : List Char) (lpp : Int) :
    (split_text_into_pages c 0 lpp = Except.error ()) ↔
      ∃ l ∈ splitOnNL c, (pyStrip l).isEmpty = false := by
  unfold split_text_into_pages
  rw [← processLines_zero_error lpp (splitOnNL c) { pages := [], current := [], count := 0 }]
  cases h : processLines 0 lpp { pages := [], current := [], count := 0 } (splitOnNL c) with
  | error e => simp
  | ok st => simp

/-! ### Decimal rendering and injectivity of output file names -/

theorem digitChar_toNat (m : Nat) (h : m < 10) : (digitChar m).toNat = 48 + m := by
  interval_cases m <;> rfl

theorem ofDigits_append_digit (ds : List Char) (c : Char) :
    ofDigits (ds ++ [c]) = ofDigits ds * 10 + (c.toNat - 48) := by
  unfold ofDigits
  rw [List.foldl_append]
  rfl

theorem ofDigits_natDigitsGo : ∀ (f n : Nat), n < f → ofDigits (natDigitsGo f n) = n := by
  intro f
  induction f with
  | zero => intro n h; omega
  | succ f ih =>
    intro n h
    unfold natDigitsGo
    by_cases hn : n < 10
    · rw [if_pos hn]
      show ofDigits [digitChar n] = n
      unfold ofDigits
      simp [digitChar_toNat n hn]
    · rw [if_neg hn]
      have hdiv : n / 10 < n := Nat.div_lt_self (by omega) (by omega)
      rw [ofDigits_append_digit, ih (n / 10) (by omega),
        digitChar_toNat (n % 10) (Nat.mod_lt n (by omega))]
      omega

theorem ofDigits_natDigits (n : Nat) : ofDigits (natDigits n) = n :=
  ofDigits_natDigitsGo (n + 1) n (Nat.lt_succ_self n)

theorem ofDigits_zero_cons (ds : List Char) : ofDigits ('0' :: ds) = ofDigits ds := by
  have h0 : 0 * 10 + ('0'.toNat - 48) = 0 := by decide
  show List.foldl (fun acc c => acc * 10 + (c.toNat - 48)) (0 * 10 + ('0'.toNat - 48)) ds =
    List.foldl (fun acc c => acc * 10 + (c.toNat - 48)) 0 ds
  rw [h0]

theorem ofDigits_pad2 (n : Nat) : ofDigits (pad2 n) = n := by
  unfold pad2
  split
  · rw [ofDigits_zero_cons, ofDigits_natDigits]
  · exact ofDigits_natDigits n

theorem pad2_inj {m n : Nat} (h : pad2 m = pad2 n) : m = n := by
  have := congrArg ofDigits h
  rwa [ofDigits_pad2, ofDigits_pad2] at this

theorem file_name_inj (ts : Timestamp) {i j : Nat} (h : file_name ts i = file_name ts j) :
    i = j := by
  unfold file_name at h
  have h1 : dateStem ts ++ pad2 i = dateStem ts ++ pad2 j :=
    List.append_cancel_right h
  exact pad2_inj (List.append_cancel_left h1)

theorem join_output_path_inj (pfx : List Char) {a b : List Char}
    (h : join_output_path pfx a = join_output_path pfx b) : a = b := by
  unfold join_output_path at h
  by_cases hs : endsWithSep pfx
  · rw [if_pos hs, if_pos hs] at h
    exact List.append_cancel_left h
  · rw [if_neg hs, if_neg hs] at h
    have h2 : (pfx ++ [pickSep pfx]) ++ a = (pfx ++ [pickSep pfx]) ++ b := h
    exact List.append_cancel_left h2

theorem output_path_ne (ts : Timestamp) (pfx : List Char) {i j : Nat} (hij : i ≠ j) :
    join_output_path pfx (file_name ts i) ≠ join_output_path pfx (file_name ts j) := by
  intro h
  exact hij (file_name_inj ts (join_output_path_inj pfx h))

/-! ### Facts about the per-page output records -/

theorem render_pages_length (ts : Timestamp) (pfx : List Char)
    (pages : List (List (List Char))) :
    (render_pages ts pfx pages).length = pages.length := by
  simp [render_pages]

theorem render_pages_total (ts : Timestamp) (pfx : List Char)
    (pages : List (List (List Char))) :
    ∀ rp ∈ render_pages ts pfx pages, rp.total = pages.length := by
  intro rp hrp
  simp only [render_pages, List.mem_map] at hrp
  obtain ⟨p, _, rfl⟩ := hrp
  rfl

theorem render_pages_map_lines (ts : Timestamp) (pfx : List Char)
    (pages : List (List (List Char))) :
    (render_pages ts pfx pages).map (fun rp => rp.lines) = pages := by
  simp only [render_pages, List.map_map]
  exact List.enum_map_snd pages

theorem mem_enumFrom_le {α : Type} :
    ∀ (l : List α) (n : Nat) (p : Nat × α), p ∈ List.enumFrom n l → n ≤ p.1 := by
  intro l
  induction l with
  | nil => intro n p h; simp at h
  | cons a rest ih =>
    intro n p h
    rw [List.enumFrom_cons] at h
    rcases List.mem_cons.mp h with h1 | h2
    · subst h1; exact Nat.le_refl n
    · exact Nat.le_of_succ_le (ih (n + 1) p h2)

theorem enumFrom_pairwise_fst_lt {α : Type} :
    ∀ (l : List α) (n : Nat), (List.enumFrom n l).Pairwise (fun p q => p.1 < q.1) := by
  intro l
  induction l with
  | nil => intro n; simp
  | cons a rest ih =>
    intro n
    rw [List.enumFrom_cons]
    refine List.Pairwise.cons ?_ (ih (n + 1))
    intro q hq
    exact Nat.lt_of_lt_of_le (Nat.lt_succ_self n) (mem_enumFrom_le rest (n + 1) q hq)

theorem render_pages_getElem (ts : Timestamp) (pfx : List Char)
    (pages : List (List (List Char))) (i : Nat)
    (h : i < (render_pages ts pfx pages).length) :
    (render_pages ts pfx pages).get ⟨i, h⟩ =
      { lines := pages.get ⟨i, by simpa [render_pages_length] using h⟩,
        index := i + 1, total := pages.length,
        path := join_output_path pfx (file_name ts (i + 1)) } := by
  have hi : i < pages.length := by simpa [render_pages_length] using h
  simp [render_pages, List.get_eq_getElem, List.getElem_map, List.enum_eq_enumFrom,
    List.getElem_enumFrom]

/-! ### Claims about the paginator -/

/-- C1 (counterexample): for the content `" "` — a single whitespace-only
source line — the paginator emits one blank display line and drops the space
character, so rejoining the display chunks of each source line and restoring
the newline separators does not reconstruct the original content. -/
theorem C1_counterexample :
    split_text_into_pages [' '] 1 1 = Except.ok [[[]]] ∧
    joinLinesNL ((splitOnNL [' ']).map (fun l => (line_display 1 l).flatten)) ≠ [' '] := by
  constructor
  · rfl
  · decide

/-- C1 (amended): for every content whose whitespace-only source lines are
all actually empty, every `chars_per_line ≥ 1` and `lines_per_page ≥ 1`, and
no `max_pages` cap, the pages' display lines concatenated in order are
exactly the per-source-line character-count chunks, and rejoining each
source line's chunks and restoring the newline separators reconstructs the
original content exactly. -/
theorem C1_reconstruction (c : List Char) (cpl lpp : Int) (hcpl : 1 ≤ cpl)
    (hlpp : 1 ≤ lpp)
    (hblank : ∀ l ∈ splitOnNL c, (pyStrip l).isEmpty = true → l = []) :
    ∃ pages, split_text_into_pages c cpl lpp = Except.ok pages ∧
      pages.flatten = ((splitOnNL c).map (line_display cpl)).flatten ∧
      joinLinesNL ((splitOnNL c).map (fun l => (line_display cpl l).flatten)) = c := by
  obtain ⟨pages, hok, hflat⟩ := split_pages_flat c cpl lpp (by omega)
  refine ⟨pages, hok, hflat, ?_⟩
  have hpt : ∀ l ∈ splitOnNL c, (line_display cpl l).flatten = l := by
    intro l hl
    unfold line_display
    by_cases hb : (pyStrip l).isEmpty
    · rw [if_pos hb]
      have := hblank l hl hb
      subst this
      rfl
    · rw [if_neg hb]
      exact pyChunks_flatten cpl l hcpl
  have hmap : (splitOnNL c).map (fun l => (line_display cpl l).flatten) =
      (splitOnNL c).map (fun l => l) := List.map_congr_left hpt
  rw [hmap, List.map_id']
  exact joinLinesNL_splitOnNL c

theorem C1_reconstruction_witness :
    ∃ pages, split_text_into_pages ("AB\n\nCD").data 1 2 = Except.ok pages ∧
      pages.flatten = ((splitOnNL ("AB\n\nCD").data).map (line_display 1)).flatten ∧
      joinLinesNL ((splitOnNL ("AB\n\nCD").data).map
        (fun l => (line_display 1 l).flatten)) = ("AB\n\nCD").data :=
  C1_reconstruction ("AB\n\nCD").data 1 2 (by decide) (by decide) (by decide)

/-- C2: paginating `"ABCDE\n\nFG"` with `chars_per_line = 3` and
`lines_per_page = 2` yields exactly the two pages `["ABC", "DE"]` and
`["", "FG"]`, and every rendered page of that result reports `total = 2`. -/
theorem C2_scenario (ts : Timestamp) (pfx : List Char) :
    split_text_into_pages ("ABCDE\n\nFG").data 3 2 =
      Except.ok [["ABC".data, "DE".data], [[], "FG".data]] ∧
    ∀ rp ∈ render_pages ts pfx [["ABC".data, "DE".data], [[], "FG".data]],
      rp.total = 2 := by
  refine ⟨rfl, ?_⟩
  intro rp hrp
  exact render_pages_total ts pfx _ rp hrp

/-- C3 (counterexample): paginating the empty string produces one page
containing one blank display line (`[""]`), not one page with zero lines. -/
theorem C3_counterexample :
    split_text_into_pages [] 3 2 = Except.ok [[[]]] ∧
    split_text_into_pages [] 3 2 ≠ Except.ok [[]] := by
  constructor
  · rfl
  · intro h
    rw [show split_text_into_pages [] 3 2 = Except.ok [[[]]] from rfl] at h
    simp at h

/-- C3 (amended): paginating the empty string (any `chars_per_line`,
`lines_per_page ≥ 1`, no `max_pages`) produces exactly one page whose display
lines are the single blank line `""` — not zero pages and not a page with
zero lines — and every rendered page of that result reports `total = 1`. -/
theorem C3_empty_content (cpl lpp : Int) (hlpp : 1 ≤ lpp) (ts : Timestamp)
    (pfx : List Char) :
    split_text_into_pages [] cpl lpp = Except.ok [[[]]] ∧
    ∀ rp ∈ render_pages ts pfx [[[]]], rp.total = 1 := by
  constructor
  · have h0 : (0 : Int) < lpp := by omega
    simp [split_text_into_pages, splitOnNL, processLines, lineStep, blankStep,
      pyStrip, h0]
  · intro rp hrp
    exact render_pages_total ts pfx _ rp hrp

theorem C3_empty_content_witness :
    split_text_into_pages [] 3 2 = Except.ok [[[]]] ∧
    ∀ rp ∈ render_pages ⟨2025, 1, 2, 3⟩ ['/'] [[[]]], rp.total = 1 :=
  C3_empty_content 3 2 (by decide) ⟨2025, 1, 2, 3⟩ ['/']

/-- C5 (counterexample): `chars_per_line = -1` is not rejected: paginating
the content `"AB"` with it silently succeeds with zero pages, dropping the
whole content, instead of failing with a configuration error. -/
theorem C5_counterexample :
    split_text_into_pages ['A', 'B'] (-1) 5 = Except.ok [] ∧
    split_text_into_pages ['A', 'B'] (-1) 5 ≠ Except.error () := by
  refine ⟨rfl, ?_⟩
  intro h
  rw [show split_text_into_pages ['A', 'B'] (-1) 5 = Except.ok [] from rfl] at h
  simp at h

/-- C5 (amended): the paginator performs no configuration validation.  For
every `chars_per_line ≠ 0` (negative included) and every `lines_per_page`
(non-positive included) it succeeds, with each non-blank source line
contributing its `range`-step chunks — none at all when `chars_per_line < 0`,
so content is silently dropped; it fails only when `chars_per_line = 0` and
some source line is non-blank (Python's `range(..., 0)` `ValueError`). -/
theorem C5_no_validation (c : List Char) (cpl lpp : Int) :
    (cpl ≠ 0 → ∃ pages, split_text_into_pages c cpl lpp = Except.ok pages ∧
      pages.flatten = ((splitOnNL c).map (line_display cpl)).flatten) ∧
    (cpl = 0 → ((split_text_into_pages c cpl lpp = Except.error ()) ↔
      ∃ l ∈ splitOnNL c, (pyStrip l).isEmpty = false)) ∧
    (cpl < 0 → ∀ line, (pyStrip line).isEmpty = false → line_display cpl line = []) := by
  refine ⟨fun h => split_pages_flat c cpl lpp h, fun h => ?_, fun h line hline => ?_⟩
  · subst h
    exact split_zero_error c lpp
  · unfold line_display
    rw [if_neg (by simp [hline])]
    unfold pyChunks
    rw [if_pos h]

theorem C5_no_validation_witness :
    (∃ pages, split_text_into_pages ['A', 'B'] (-1) 5 = Except.ok pages ∧
      pages.flatten = ((splitOnNL ['A', 'B']).map (line_display (-1))).flatten) ∧
    ((split_text_into_pages ['A', 'B'] 0 5 = Except.error ()) ↔
      ∃ l ∈ splitOnNL ['A', 'B'], (pyStrip l).isEmpty = false) ∧
    line_display (-1) ['A', 'B'] = [] :=
  ⟨(C5_no_validation ['A', 'B'] (-1) 5).1 (by decide),
   (C5_no_validation ['A', 'B'] 0 5).2.1 rfl,
   (C5_no_validation ['A', 'B'] (-1) 5).2.2 (by decide) ['A', 'B'] (by decide)⟩

/-- C10: a non-empty source line consisting only of whitespace characters
(any character Python's `str.strip()` blanks — spaces, tabs, `'\r'`,
`'\x0b'`, `'\x0c'`, U+00A0, U+3000, … — excluding `'\n'`, which cannot occur
inside a source line produced by `content.split('\n')`) is treated exactly
like an empty line: the loop takes the blank-line branch (one empty display
line, subject to the page-capacity rule), and as a whole content such a line
yields one page holding a single blank display line — its whitespace
characters are dropped, not chunked. -/
theorem C10_whitespace_only_line (ws : List Char) (cpl lpp : Int) (st : PagState)
    (hne : ws ≠ []) (hnl : '\n' ∉ ws) (hws : ∀ ch ∈ ws, pyIsSpace ch = true) :
    lineStep cpl lpp st ws = Except.ok (blankStep lpp st) ∧
    (1 ≤ lpp → split_text_into_pages ws cpl lpp = Except.ok [[[]]]) := by
  have h1 : ws.dropWhile pyIsSpace = [] :=
    List.dropWhile_eq_nil_iff.mpr (fun x hx => by simpa using hws x hx)
  have hstrip : pyStrip ws = [] := by
    unfold pyStrip
    rw [h1]
    rfl
  have hb : (pyStrip ws).isEmpty = true := by
    rw [hstrip]
    rfl
  constructor
  · unfold lineStep
    rw [if_pos hb]
  · intro hlpp
    have h0 : (0 : Int) < lpp := by omega
    unfold split_text_into_pages
    rw [splitOnNL_no_newline ws hnl]
    simp [processLines, lineStep, hb, blankStep, h0]

theorem C10_whitespace_only_line_witness :
    lineStep 5 3 { pages := [], current := [], count := 0 }
        [' ', '\t', '\r', '\x0b', '\x0c', Char.ofNat 0xa0, Char.ofNat 0x3000] =
      Except.ok (blankStep 3 { pages := [], current := [], count := 0 }) ∧
    ((1 : Int) ≤ 3 →
      split_text_into_pages
        [' ', '\t', '\r', '\x0b', '\x0c', Char.ofNat 0xa0, Char.ofNat 0x3000] 5 3 =
        Except.ok [[[]]]) :=
  C10_whitespace_only_line
    [' ', '\t', '\r', '\x0b', '\x0c', Char.ofNat 0xa0, Char.ofNat 0x3000] 5 3
    { pages := [], current := [], count := 0 } (by decide) (by decide) (by decide)

/-! ### Claims about the derivation, truncation, naming and tool wrapper -/

/-- C6 (counterexample): the derivations carry no lower clamp of 1: a
measured char width of 700 on the 800-wide canvas yields
`chars_per_line = 0`, and a height of 200 yields `lines_per_page = 0`,
while the claimed `max(1, ...)` formulas would give 1. -/
theorem C6_counterexample :
    derive_chars_per_line 800 (some 700) ≠ max 1 ((800 - 2 * 60 : Int).fdiv 700) ∧
    derive_lines_per_page 200 ≠ max 1 ((200 - 120 - 50 - 20 : Int).fdiv 35) ∧
    derive_chars_per_line 800 (some 700) = 0 ∧
    derive_lines_per_page 200 = 0 := by
  decide

/-- C6 (amended): the derived capacities are plain floor divisions with no
lower clamp: `chars_per_line = (canvas_width - 2·60) // char_width` for every
non-zero measured char width (with fallback width 24 when `textlength` is
unavailable), and `lines_per_page = (canvas_height - 120 - 50 - 20) // 35`;
either value can be 0 or negative. -/
theorem C6_derived_capacities (w h cw : Int) (hcw : cw ≠ 0) :
    derive_chars_per_line w (some cw) = (w - 2 * 60).fdiv cw ∧
    derive_chars_per_line w none = (w - 2 * 60).fdiv 24 ∧
    derive_lines_per_page h = (h - 120 - 50 - 20).fdiv 35 := by
  refine ⟨?_, ?_, rfl⟩
  · show (if cw = 0 then 25 else (w - 120).fdiv cw) = (w - 2 * 60).fdiv cw
    rw [if_neg hcw]
    norm_num
  · show (if (24 : Int) = 0 then 25 else (w - 120).fdiv 24) = (w - 2 * 60).fdiv 24
    norm_num

theorem C6_derived_capacities_witness :
    derive_chars_per_line 800 (some 24) = (800 - 2 * 60 : Int).fdiv 24 ∧
    derive_chars_per_line 800 none = (800 - 2 * 60 : Int).fdiv 24 ∧
    derive_lines_per_page 1200 = (1200 - 120 - 50 - 20 : Int).fdiv 35 :=
  C6_derived_capacities 800 1200 24 (by decide)

/-- `save_pages` succeeds exactly when every page's containing directory
exists (or the path is a bare file name saved into the current working
directory). -/
theorem save_pages_ok_iff (fs : List (List Char)) :
    ∀ (rps : List RenderedPage),
      (∃ paths, save_pages fs rps = Except.ok paths) ↔
        ∀ rp ∈ rps, (py_dirname rp.path = [] ∨ py_dirname rp.path ∈ fs) := by
  intro rps
  induction rps with
  | nil =>
    constructor
    · intro _ rp hrp
      simp at hrp
    · intro _
      exact ⟨[], rfl⟩
  | cons rp rest ih =>
    constructor
    · rintro ⟨paths, hp⟩
      unfold save_pages at hp
      by_cases hc : py_dirname rp.path = [] ∨ py_dirname rp.path ∈ fs
      · rw [if_pos hc] at hp
        intro x hx
        rcases List.mem_cons.mp hx with hx1 | hx2
        · rw [hx1]
          exact hc
        · cases hr : save_pages fs rest with
          | error e =>
            rw [hr] at hp
            exact absurd hp (by simp)
          | ok ps =>
            exact (ih.mp ⟨ps, hr⟩) x hx2
      · rw [if_neg hc] at hp
        exact absurd hp (by simp)
    · intro hall
      have hc := hall rp (List.mem_cons_self _ _)
      obtain ⟨ps, hps⟩ := ih.mpr (fun x hx => hall x (List.mem_cons_of_mem _ hx))
      refine ⟨rp.path :: ps, ?_⟩
      unfold save_pages
      rw [if_pos hc, hps]

/-- C4 (counterexample): `max_pages = 0` is a set value, and the content
`"A"` produces 1 > 0 pages uncapped, yet the Python truthiness test
`if max_pages and ...` skips truncation entirely: the result keeps 1 page
with `total = 1` instead of being cut to 0 pages. -/
theorem C4_counterexample :
    create_smart_multi_page_story ⟨2025, 1, 2, 3⟩ (some 24) ("t").data ("A").data
      (some 0) ['/'] 800 1200 [] =
      Except.ok ([{ lines := [['A']]
                    index := 1
                    total := 1
                    path := ("/2025_01_02_03_01.png").data }], [['/']]) := by
  rfl

/-- C4 (amended): for every set `max_pages = M ≥ 1` and every content whose
uncapped run (against the same filesystem) produces more than `M` pages, the
capped run succeeds with exactly the first `M` pages, and every retained
page reports `total = M`. -/
theorem C4_truncation (ts : Timestamp) (cw : Option Int)
    (title content pfx : List Char) (w h m : Int) (fs : List (List Char))
    (rpsU : List RenderedPage) (fsU : List (List Char)) (hm : 1 ≤ m)
    (hU : create_smart_multi_page_story ts cw title content none pfx w h fs =
      Except.ok (rpsU, fsU))
    (hgt : m < (rpsU.length : Int)) :
    ∃ rpsC, create_smart_multi_page_story ts cw title content (some m) pfx w h fs =
        Except.ok (rpsC, fsU) ∧
      (rpsC.length : Int) = m ∧
      (∀ rp ∈ rpsC, (rp.total : Int) = m) ∧
      rpsC.map (fun rp => rp.lines) = (rpsU.map (fun rp => rp.lines)).take m.toNat := by
  unfold create_smart_multi_page_story at hU ⊢
  cases hsplit : split_text_into_pages content (derive_chars_per_line w cw)
      (derive_lines_per_page h) with
  | error e =>
    rw [hsplit] at hU
    exact absurd hU (by simp)
  | ok pages =>
    rw [hsplit] at hU
    have hU2 : (match save_pages (ensure_output_dir fs pfx) (render_pages ts pfx pages) with
        | Except.error e => (Except.error e : Except Unit (List RenderedPage × List (List Char)))
        | Except.ok _ => Except.ok (render_pages ts pfx pages, ensure_output_dir fs pfx)) =
        Except.ok (rpsU, fsU) := hU
    cases hsave : save_pages (ensure_output_dir fs pfx) (render_pages ts pfx pages) with
    | error e =>
      rw [hsave] at hU2
      exact absurd hU2 (by simp)
    | ok paths =>
      rw [hsave] at hU2
      simp only [Except.ok.injEq, Prod.mk.injEq] at hU2
      obtain ⟨hU', hfs⟩ := hU2
      have hlen : pages.length = rpsU.length := by
        rw [← hU', render_pages_length]
      have hmlt : m < (pages.length : Int) := by
        rw [hlen]
        exact hgt
      have happly : apply_max_pages (some m) pages = pages.take m.toNat := by
        show (if m ≠ 0 ∧ m < (pages.length : Int) then pySliceTo pages m else pages) =
          pages.take m.toNat
        rw [if_pos ⟨by omega, hmlt⟩]
        unfold pySliceTo
        rw [if_pos (by omega)]
      have htk : m.toNat ≤ pages.length := by omega
      have hcheckU : ∀ rp ∈ render_pages ts pfx pages,
          (py_dirname rp.path = [] ∨ py_dirname rp.path ∈ ensure_output_dir fs pfx) :=
        (save_pages_ok_iff _ _).mp ⟨paths, hsave⟩
      have hcheckC : ∀ rp ∈ render_pages ts pfx (pages.take m.toNat),
          (py_dirname rp.path = [] ∨ py_dirname rp.path ∈ ensure_output_dir fs pfx) := by
        intro rp hrp
        obtain ⟨i, hget⟩ := List.mem_iff_get.mp hrp
        have hlen1 : (render_pages ts pfx (pages.take m.toNat)).length ≤ pages.length := by
          rw [render_pages_length, List.length_take]
          exact Nat.min_le_right _ _
        have hi' : i.1 < pages.length := Nat.lt_of_lt_of_le i.2 hlen1
        have hiU : i.1 < (render_pages ts pfx pages).length :=
          Nat.lt_of_lt_of_le hi' (Nat.le_of_eq (render_pages_length ts pfx pages).symm)
        have hmemU := List.get_mem (render_pages ts pfx pages) i.1 hiU
        have hcheck := hcheckU _ hmemU
        rw [render_pages_getElem ts pfx pages i.1 hiU] at hcheck
        rw [← hget,
          show (render_pages ts pfx (pages.take m.toNat)).get i =
            (render_pages ts pfx (pages.take m.toNat)).get ⟨i.1, i.2⟩ from rfl,
          render_pages_getElem ts pfx (pages.take m.toNat) i.1 i.2]
        exact hcheck
      obtain ⟨pathsC, hsaveC⟩ := (save_pages_ok_iff (ensure_output_dir fs pfx)
        (render_pages ts pfx (pages.take m.toNat))).mpr hcheckC
      refine ⟨render_pages ts pfx (pages.take m.toNat), ?_, ?_, ?_, ?_⟩
      · show (match save_pages (ensure_output_dir fs pfx)
            (render_pages ts pfx (apply_max_pages (some m) pages)) with
          | Except.error e =>
            (Except.error e : Except Unit (List RenderedPage × List (List Char)))
          | Except.ok _ => Except.ok (render_pages ts pfx (apply_max_pages (some m) pages),
              ensure_output_dir fs pfx)) =
          Except.ok (render_pages ts pfx (pages.take m.toNat), fsU)
        rw [happly, hsaveC]
        show Except.ok (render_pages ts pfx (pages.take m.toNat), ensure_output_dir fs pfx) =
          Except.ok (render_pages ts pfx (pages.take m.toNat), fsU)
        rw [hfs]
      · rw [render_pages_length, List.length_take, Nat.min_eq_left htk]
        omega
      · intro rp hrp
        have h1 := render_pages_total ts pfx (pages.take m.toNat) rp hrp
        rw [h1, List.length_take, Nat.min_eq_left htk]
        omega
      · rw [render_pages_map_lines, ← hU', render_pages_map_lines]

theorem C4_truncation_witness :
    ∃ rpsC, create_smart_multi_page_story ⟨2025, 1, 2, 3⟩ (some 680) ("t").data
        ("AB").data (some 1) ['/'] 800 225 [] = Except.ok (rpsC, [['/']]) ∧
      (rpsC.length : Int) = 1 ∧
      (∀ rp ∈ rpsC, (rp.total : Int) = 1) ∧
      rpsC.map (fun rp => rp.lines) =
        ((render_pages ⟨2025, 1, 2, 3⟩ ['/'] [[['A']], [['B']]]).map
          (fun rp => rp.lines)).take (1 : Int).toNat :=
  C4_truncation ⟨2025, 1, 2, 3⟩ (some 680) ("t").data ("AB").data ['/'] 800 225 1 []
    (render_pages ⟨2025, 1, 2, 3⟩ ['/'] [[['A']], [['B']]]) [['/']] (by decide) rfl
    (by decide)

/-- C7: within one invocation the page records carry pairwise distinct
output paths: the timestamped file name embeds the 1-based page index, whose
zero-padded decimal rendering is injective. -/
theorem C7_output_paths_unique (ts : Timestamp) (pfx : List Char)
    (pages : List (List (List Char))) :
    (render_pages ts pfx pages).Pairwise (fun a b => a.path ≠ b.path) := by
  unfold render_pages
  rw [List.pairwise_map, List.enum_eq_enumFrom]
  refine List.Pairwise.imp ?_ (enumFrom_pairwise_fst_lt pages 0)
  intro a b hlt
  show join_output_path pfx (file_name ts (a.1 + 1)) ≠
    join_output_path pfx (file_name ts (b.1 + 1))
  exact output_path_ne ts pfx (by omega)

/-- C9: `execute` treats every `image_type` value identically — the fallback
branch for an unknown value runs the very same
`create_smart_multi_page_story(title, content)` call, so the result payload
does not depend on `image_type` and no value is rejected. -/
theorem C9_image_type_ignored (ts : Timestamp) (cw : Option Int)
    (fs : List (List Char)) (title content imageType : List Char) :
    Text2ImageTool_execute ts cw fs title content imageType =
      Text2ImageTool_execute ts cw fs title content ("BlackBgWhiteText").data := by
  simp only [Text2ImageTool_execute, ite_self]


/-! ### Claims about output persistence (C8) -/

theorem natDigitsGo_ne_slash : ∀ (f n : Nat), ∀ c ∈ natDigitsGo f n, c ≠ '/' := by
  intro f
  induction f with
  | zero =>
    intro n c hc
    simp [natDigitsGo] at hc
  | succ f ih =>
    intro n c hc
    unfold natDigitsGo at hc
    by_cases hn : n < 10
    · rw [if_pos hn] at hc
      simp at hc
      subst hc
      intro h
      have h2 := congrArg Char.toNat h
      rw [digitChar_toNat n hn] at h2
      rw [show '/'.toNat = 47 from rfl] at h2
      omega
    · rw [if_neg hn] at hc
      rcases List.mem_append.mp hc with h1 | h2
      · exact ih (n / 10) c h1
      · simp at h2
        subst h2
        intro h
        have h3 := congrArg Char.toNat h
        rw [digitChar_toNat (n % 10) (Nat.mod_lt n (by omega))] at h3
        rw [show '/'.toNat = 47 from rfl] at h3
        omega

theorem natDigits_ne_slash (n : Nat) : ∀ c ∈ natDigits n, c ≠ '/' :=
  fun c hc => natDigitsGo_ne_slash (n + 1) n c hc

theorem pad2_ne_slash (n : Nat) : ∀ c ∈ pad2 n, c ≠ '/' := by
  intro c hc
  unfold pad2 at hc
  by_cases h : n < 10
  · rw [if_pos h] at hc
    rcases List.mem_cons.mp hc with h1 | h2
    · rw [h1]
      decide
    · exact natDigits_ne_slash n c h2
  · rw [if_neg h] at hc
    exact natDigits_ne_slash n c hc

theorem file_name_ne_slash (ts : Timestamp) (i : Nat) : '/' ∉ file_name ts i := by
  intro hmem
  unfold file_name dateStem at hmem
  simp only [List.append_assoc, List.mem_append] at hmem
  rcases hmem with h | h | h | h | h | h | h | h | h | h
  · exact natDigits_ne_slash ts.year '/' h rfl
  · simp at h
  · exact pad2_ne_slash ts.month '/' h rfl
  · simp at h
  · exact pad2_ne_slash ts.day '/' h rfl
  · simp at h
  · exact pad2_ne_slash ts.hour '/' h rfl
  · simp at h
  · exact pad2_ne_slash i '/' h rfl
  · simp at h

/-- Appending a slash-free file name does not change the directory a path
denotes. -/
theorem py_dirname_append_no_slash (P name : List Char) (h : '/' ∉ name) :
    py_dirname (P ++ name) = py_dirname P := by
  have hrev : (P ++ name).reverse.dropWhile (fun c => c ≠ '/') =
      P.reverse.dropWhile (fun c => c ≠ '/') := by
    rw [List.reverse_append]
    exact List.dropWhile_append_of_pos (fun x hx => by
      have hxm : x ∈ name := List.mem_reverse.mp hx
      by_cases hxe : x = '/'
      · exact absurd (hxe ▸ hxm) h
      · simpa using hxe)
  unfold py_dirname
  rw [hrev]

/-- The path-joining step always has the shape "joined prefix ++ file name". -/
theorem join_output_path_eq (pfx name : List Char) :
    join_output_path pfx name =
      (if endsWithSep pfx then pfx else pfx ++ [pickSep pfx]) ++ name := by
  unfold join_output_path
  by_cases hs : endsWithSep pfx
  · rw [if_pos hs, if_pos hs]
  · rw [if_neg hs, if_neg hs]

/-- All output paths of one invocation lie in one directory, determined by
the prefix alone. -/
theorem py_dirname_join (pfx : List Char) (ts : Timestamp) (i : Nat) :
    py_dirname (join_output_path pfx (file_name ts i)) =
      py_dirname (if endsWithSep pfx then pfx else pfx ++ [pickSep pfx]) := by
  rw [join_output_path_eq]
  exact py_dirname_append_no_slash _ _ (file_name_ne_slash ts i)

/-- C8: persisted file names are deterministically generated as
`<year>_<month%02d>_<day%02d>_<hour%02d>_<pageIndex%02d>.png`; for every
invocation that actually produces two pages (returns successfully, so every
`image.save` found its containing directory), the two returned paths share a
common stem and differ only in the zero-padded page-index field, both lie
under the requested destination prefix in one common directory, and that
directory exists afterwards (the empty dirname denotes the current working
directory, which always exists). -/
theorem C8_persist_layout (ts : Timestamp) (cw : Option Int)
    (title content pfx : List Char) (mp : Option Int) (w h : Int)
    (fs fsA : List (List Char)) (rp1 rp2 : RenderedPage)
    (hrun : create_smart_multi_page_story ts cw title content mp pfx w h fs =
      Except.ok ([rp1, rp2], fsA)) :
    (∃ stem, rp1.path = stem ++ pad2 1 ++ (".png").data ∧
      rp2.path = stem ++ pad2 2 ++ (".png").data) ∧
    pad2 1 = ("01").data ∧ pad2 2 = ("02").data ∧
    (∃ r1, rp1.path = pfx ++ r1) ∧ (∃ r2, rp2.path = pfx ++ r2) ∧
    py_dirname rp1.path = py_dirname rp2.path ∧
    (py_dirname rp1.path = [] ∨ py_dirname rp1.path ∈ fsA) := by
  unfold create_smart_multi_page_story at hrun
  cases hsplit : split_text_into_pages content (derive_chars_per_line w cw)
      (derive_lines_per_page h) with
  | error e =>
    rw [hsplit] at hrun
    exact absurd hrun (by simp)
  | ok pages =>
    rw [hsplit] at hrun
    have hrun2 : (match save_pages (ensure_output_dir fs pfx)
          (render_pages ts pfx (apply_max_pages mp pages)) with
        | Except.error e =>
          (Except.error e : Except Unit (List RenderedPage × List (List Char)))
        | Except.ok _ => Except.ok (render_pages ts pfx (apply_max_pages mp pages),
            ensure_output_dir fs pfx)) =
        Except.ok ([rp1, rp2], fsA) := hrun
    cases hsave : save_pages (ensure_output_dir fs pfx)
        (render_pages ts pfx (apply_max_pages mp pages)) with
    | error e =>
      rw [hsave] at hrun2
      exact absurd hrun2 (by simp)
    | ok paths =>
      rw [hsave] at hrun2
      simp only [Except.ok.injEq, Prod.mk.injEq] at hrun2
      obtain ⟨hrps, hfs⟩ := hrun2
      have hlen2 : (apply_max_pages mp pages).length = 2 := by
        have hl := render_pages_length ts pfx (apply_max_pages mp pages)
        rw [hrps] at hl
        simpa using hl.symm
      obtain ⟨a, b, hab⟩ := List.length_eq_two.mp hlen2
      rw [hab] at hrps
      have hrps2 :
          ([{ lines := a
              index := 1
              total := 2
              path := join_output_path pfx (file_name ts 1) },
            { lines := b
              index := 2
              total := 2
              path := join_output_path pfx (file_name ts 2) }] :
            List RenderedPage) = [rp1, rp2] := hrps
      rw [List.cons.injEq, List.cons.injEq] at hrps2
      obtain ⟨e1, e2, -⟩ := hrps2
      have hp1 : rp1.path = join_output_path pfx (file_name ts 1) := by
        rw [← e1]
      have hp2 : rp2.path = join_output_path pfx (file_name ts 2) := by
        rw [← e2]
      have hunder : ∀ i : Nat, ∃ r, join_output_path pfx (file_name ts i) = pfx ++ r := by
        intro i
        unfold join_output_path
        by_cases hs : endsWithSep pfx
        · rw [if_pos hs]
          exact ⟨file_name ts i, rfl⟩
        · rw [if_neg hs]
          exact ⟨[pickSep pfx] ++ file_name ts i, by simp [List.append_assoc]⟩
      refine ⟨?_, by decide, by decide, ?_, ?_, ?_, ?_⟩
      · refine ⟨(if endsWithSep pfx then pfx else pfx ++ [pickSep pfx]) ++ dateStem ts,
          ?_, ?_⟩
        · rw [hp1, join_output_path_eq]
          unfold file_name
          simp [List.append_assoc]
        · rw [hp2, join_output_path_eq]
          unfold file_name
          simp [List.append_assoc]
      · obtain ⟨r1, hr1⟩ := hunder 1
        exact ⟨r1, by rw [hp1, hr1]⟩
      · obtain ⟨r2, hr2⟩ := hunder 2
        exact ⟨r2, by rw [hp2, hr2]⟩
      · rw [hp1, hp2, py_dirname_join, py_dirname_join]
      · have hcheck := (save_pages_ok_iff _ _).mp ⟨paths, hsave⟩
        have hmem1 : rp1 ∈ render_pages ts pfx (apply_max_pages mp pages) := by
          rw [hab, hrps]
          exact List.mem_cons_self _ _
        have hc1 := hcheck rp1 hmem1
        rw [hfs] at hc1
        exact hc1

theorem C8_persist_layout_witness :
    (∃ stem, ("/out/2025_01_02_03_01.png").data = stem ++ pad2 1 ++ (".png").data ∧
      ("/out/2025_01_02_03_02.png").data = stem ++ pad2 2 ++ (".png").data) ∧
    pad2 1 = ("01").data ∧ pad2 2 = ("02").data ∧
    (∃ r1, ("/out/2025_01_02_03_01.png").data = ("/out/").data ++ r1) ∧
    (∃ r2, ("/out/2025_01_02_03_02.png").data = ("/out/").data ++ r2) ∧
    py_dirname ("/out/2025_01_02_03_01.png").data =
      py_dirname ("/out/2025_01_02_03_02.png").data ∧
    (py_dirname ("/out/2025_01_02_03_01.png").data = [] ∨
      py_dirname ("/out/2025_01_02_03_01.png").data ∈ [("/out").data]) :=
  C8_persist_layout ⟨2025, 1, 2, 3⟩ (some 680) ("t").data ("AB").data ("/out/").data
    none 800 225 [] [("/out").data]
    { lines := [['A']]
      index := 1
      total := 2
      path := ("/out/2025_01_02_03_01.png").data }
    { lines := [['B']]
      index := 2
      total := 2
      path := ("/out/2025_01_02_03_02.png").data }
    rfl
